import Mathlib

/-!
Verification development for the voxel engine core: a shallow embedding of
the block model, chunk neighborhood indexing, the face-culling mesher with
ambient occlusion (`src/voxel/src/world/meshes.rs`, `chunk.rs`, `block.rs`,
`face.rs`), the streaming scheduler (`world/mod.rs`) and the frustum math
(`render/frustum_culling.rs`), together with theorems settling the spec's
claims about them.
-/

namespace Voxel

/-- Visibility class of a block (`block.rs`, enum `Visibility`). -/
inductive Visibility where
  | Opaque
  | Transparent
  | Empty
deriving DecidableEq, Repr, Fintype

/-- Block enum as produced by the `define_block!` macro in `block.rs`:
`Air` (default), `Grass: 0`, `Water(transparent): 1`. -/
inductive Block where
  | Air
  | Grass
  | Water
deriving DecidableEq, Repr, Fintype

/-- `Block::visibility` (`block.rs`): `Air` is `Empty`; `Grass` has the
default `Opaque` visibility; `Water` is declared `transparent`. -/
def Block.visibility : Block → Visibility
  | .Air => .Empty
  | .Grass => .Opaque
  | .Water => .Transparent

/-- `Block::texture_id` (`block.rs`). The `Air` arm is `unreachable!()` in the
source; the panic is modelled as `none`. -/
def Block.textureId : Block → Option ℕ
  | .Air => none
  | .Grass => some 0
  | .Water => some 1

/-- `Block::is_opaque` (`block.rs`). -/
def Block.isOpaque (b : Block) : Bool :=
  b.visibility = Visibility.Opaque

/-- `Block::is_empty` (`block.rs`). -/
def Block.isEmpty (b : Block) : Bool :=
  b.visibility = Visibility.Empty

/-- Face direction (`face.rs`, enum `Direction`), declared in source order
`Top, Bottom, Left, Right, Front, Back` (so `as u32` ordinals are 0..5). -/
inductive Direction where
  | Top
  | Bottom
  | Left
  | Right
  | Front
  | Back
deriving DecidableEq, Repr, Fintype

/-- `Direction as u32`: the ordinal of the enum variant. -/
def Direction.ordinal : Direction → ℕ
  | .Top => 0
  | .Bottom => 1
  | .Left => 2
  | .Right => 3
  | .Front => 4
  | .Back => 5

/-- `Direction::to_vec` (`face.rs`): unit offsets `+Y, -Y, -X, +X, +Z, -Z`. -/
def Direction.toVec : Direction → ℤ × ℤ × ℤ
  | .Top => (0, 1, 0)
  | .Bottom => (0, -1, 0)
  | .Left => (-1, 0, 0)
  | .Right => (1, 0, 0)
  | .Front => (0, 0, 1)
  | .Back => (0, 0, -1)

/-- `u32::wrapping_add_signed` on one coordinate: the machine addition of a
`u32` and an `i32`, reduced mod `2^32`. -/
def wrapAddSigned (a : ℕ) (b : ℤ) : ℕ :=
  (((a : ℤ) + b) % (2 ^ 32)).toNat

/-- `UVec3::wrapping_add_signed` componentwise. -/
def wrapAdd3 (p : ℕ × ℕ × ℕ) (v : ℤ × ℤ × ℤ) : ℕ × ℕ × ℕ :=
  (wrapAddSigned p.1 v.1, wrapAddSigned p.2.1 v.2.1, wrapAddSigned p.2.2 v.2.2)

/-- `CHUNK_SIZE` (`chunk.rs`). -/
def CHUNK_SIZE : ℕ := 16

/-- `RawChunk` (`chunk.rs`): a dense `16^3` block array. The source stores
`stack[y][x][z]`; the array is modelled extensionally as a function from the
`(x, y, z)` index triple used by `Index<UVec3>` (only indices below 16 are
ever dereferenced by the code embedded here). -/
structure RawChunk where
  blocks : ℕ × ℕ × ℕ → Block

/-- `RawChunk`'s `Index<UVec3>` impl: look up the block at `(x, y, z)`. -/
def RawChunk.get (c : RawChunk) (p : ℕ × ℕ × ℕ) : Block :=
  c.blocks p

/-- `ChunkOrAir` indexing (`chunk.rs`): a missing chunk reads as all `Air`. -/
def chunkOrAir : Option RawChunk → ℕ × ℕ × ℕ → Block
  | none, _ => .Air
  | some c, p => c.get p

/-- The `OFFSETS` table of `chunk.rs`: `X, NEG_X, Y, NEG_Y, Z, NEG_Z`. -/
def OFFSETS : Fin 6 → ℤ × ℤ × ℤ
  | 0 => (1, 0, 0)
  | 1 => (-1, 0, 0)
  | 2 => (0, 1, 0)
  | 3 => (0, -1, 0)
  | 4 => (0, 0, 1)
  | 5 => (0, 0, -1)

/-- Componentwise addition of signed chunk coordinates. -/
def addI3 (a b : ℤ × ℤ × ℤ) : ℤ × ℤ × ℤ :=
  (a.1 + b.1, a.2.1 + b.2.1, a.2.2 + b.2.2)

/-- `ChunkNeighborhood` (`chunk.rs`): a read view of the chunk map together
with the center chunk coordinate. The `HashMap<IVec3, Chunk>` is modelled as
a partial function from coordinates to chunks. -/
structure ChunkNeighborhood where
  chunks : ℤ × ℤ × ℤ → Option RawChunk
  center : ℤ × ℤ × ℤ

/-- The `neighbors` array built inside `ChunkNeighborhood::get`: the chunk at
`center + OFFSETS[i]`, if present. -/
def ChunkNeighborhood.neighbor (n : ChunkNeighborhood) (i : Fin 6) : Option RawChunk :=
  n.chunks (addI3 n.center (OFFSETS i))

/-- Interval test `lo..=hi` on a `u32` pattern component. -/
def inRange (a : ℕ) : Prop := 1 ≤ a ∧ a ≤ CHUNK_SIZE

instance (a : ℕ) : Decidable (inRange a) := by
  unfold inRange; infer_instance

/-- The dispatch `match` of `ChunkNeighborhood::get` (`chunk.rs`), with the
center chunk already unwrapped. Arms are in source order: center window
`1..=16` on every axis, then the six single-axis `17` / `0` face cases, then
the catch-all returning `Air`. -/
def ChunkNeighborhood.getWith (n : ChunkNeighborhood) (c : RawChunk) (p : ℕ × ℕ × ℕ) : Block :=
  let x := p.1
  let y := p.2.1
  let z := p.2.2
  if inRange x ∧ inRange y ∧ inRange z then
    c.get (x - 1, y - 1, z - 1)
  else if x = CHUNK_SIZE + 1 ∧ inRange y ∧ inRange z then
    chunkOrAir (n.neighbor 0) (0, y - 1, z - 1)
  else if x = 0 ∧ inRange y ∧ inRange z then
    chunkOrAir (n.neighbor 1) (CHUNK_SIZE - 1, y - 1, z - 1)
  else if inRange x ∧ y = CHUNK_SIZE + 1 ∧ inRange z then
    chunkOrAir (n.neighbor 2) (x - 1, 0, z - 1)
  else if inRange x ∧ y = 0 ∧ inRange z then
    chunkOrAir (n.neighbor 3) (x - 1, CHUNK_SIZE - 1, z - 1)
  else if inRange x ∧ inRange y ∧ z = CHUNK_SIZE + 1 then
    chunkOrAir (n.neighbor 4) (x - 1, y - 1, 0)
  else if inRange x ∧ inRange y ∧ z = 0 then
    chunkOrAir (n.neighbor 5) (x - 1, y - 1, CHUNK_SIZE - 1)
  else
    .Air

/-- `ChunkNeighborhood::get` (`chunk.rs`). The source unwraps the center
lookup before dispatching, so the whole call panics when the center chunk is
absent from the map; the panic is modelled as `none`. -/
def ChunkNeighborhood.getq (n : ChunkNeighborhood) (p : ℕ × ℕ × ℕ) : Option Block :=
  (n.chunks n.center).map (fun c => n.getWith c p)

/-- Total wrapper for `ChunkNeighborhood::get`, used by the mesher embedding;
it agrees with the source on every neighborhood whose center chunk is present
(the only neighborhoods on which the source function returns at all). -/
def ChunkNeighborhood.get (n : ChunkNeighborhood) (p : ℕ × ℕ × ℕ) : Block :=
  (n.getq p).getD .Air

/-- `Face` (`face.rs`): an emitted quad. -/
structure Face where
  block : Block
  direction : Direction
  position : ℕ × ℕ × ℕ
  ao : ℕ × ℕ × ℕ × ℕ
deriving DecidableEq, Repr

/-- `Face::new` (`face.rs`), with the source's argument order. -/
def Face.new (block : Block) (position : ℕ × ℕ × ℕ) (ao : ℕ × ℕ × ℕ × ℕ)
    (direction : Direction) : Face :=
  { block := block, direction := direction, position := position, ao := ao }

/-- `Face::indices` (`face.rs`): `[0,1,2,2,3,0]` offset by `4 * index`
(`u16` arithmetic, reduced mod `2^16`). -/
def Face.indices (index : ℕ) : List ℕ :=
  let offset := (index * 4) % 2 ^ 16
  [offset, (1 + offset) % 2 ^ 16, (2 + offset) % 2 ^ 16,
    (2 + offset) % 2 ^ 16, (3 + offset) % 2 ^ 16, offset]

/-- The per-direction unit-cube corner table of `Face::vertices`
(`face.rs`), in source order. -/
def Face.cornerTable : Direction → List (ℕ × ℕ × ℕ)
  | .Top => [(0, 1, 0), (1, 1, 0), (1, 1, 1), (0, 1, 1)]
  | .Bottom => [(1, 0, 1), (1, 0, 0), (0, 0, 0), (0, 0, 1)]
  | .Left => [(0, 1, 0), (0, 1, 1), (0, 0, 1), (0, 0, 0)]
  | .Right => [(1, 1, 1), (1, 1, 0), (1, 0, 0), (1, 0, 1)]
  | .Front => [(0, 1, 1), (1, 1, 1), (1, 0, 1), (0, 0, 1)]
  | .Back => [(1, 1, 0), (0, 1, 0), (0, 0, 0), (1, 0, 0)]

/-- Componentwise addition of unsigned positions. -/
def addN3 (a b : ℕ × ℕ × ℕ) : ℕ × ℕ × ℕ :=
  (a.1 + b.1, a.2.1 + b.2.1, a.2.2 + b.2.2)

/-- The four positions `vertex_position + self.position` computed by
`Face::vertices` (`face.rs`). -/
def Face.cornerPositions (f : Face) : List (ℕ × ℕ × ℕ) :=
  (Face.cornerTable f.direction).map (fun v => addN3 v f.position)

/-- `Vertex::new` (`render/vertex.rs`): pack position, ao, texture id and
direction ordinal into one 32-bit word. -/
def Vertex.new (position : ℕ × ℕ × ℕ) (ao : ℕ) (textureId : ℕ) (direction : ℕ) : ℕ :=
  (position.1 <<< 27 ||| position.2.1 <<< 22 ||| position.2.2 <<< 17 |||
    ao <<< 15 ||| textureId <<< 9 ||| direction <<< 6) % 2 ^ 32

/-- The ao array of a face as a list, in corner order. -/
def Face.aoList (f : Face) : List ℕ :=
  [f.ao.1, f.ao.2.1, f.ao.2.2.1, f.ao.2.2.2]

/-- `Face::vertices` (`face.rs`): the four packed vertices of the quad. Each
vertex calls `Block::texture_id`, which panics on `Air`; the panic is
modelled as `none`. -/
def Face.vertices (f : Face) : Option (List ℕ) :=
  (f.block.textureId).map (fun tid =>
    (f.cornerPositions.zip f.aoList).map (fun ca =>
      Vertex.new ca.1 ca.2 tid f.direction.ordinal))

/-- The `NEIGHBORS` direction table of `meshes.rs`, in source order. -/
def NEIGHBORS : List Direction :=
  [.Bottom, .Top, .Left, .Right, .Front, .Back]

/-- The `meshing_range` iterator of `create_raw_mesh` (`meshes.rs`):
`(x, y, z)` over `[1..=16]^3`, `x` outermost, `z` innermost. -/
def meshingRange : List (ℕ × ℕ × ℕ) :=
  (List.range' 1 CHUNK_SIZE).flatMap (fun x =>
    (List.range' 1 CHUNK_SIZE).flatMap (fun y =>
      (List.range' 1 CHUNK_SIZE).map (fun z => (x, y, z))))

/-- The per-direction 8-offset ambient-occlusion sampling table of
`ao_values` (`meshes.rs`), in source order. -/
def aoOffsets : Direction → List (ℤ × ℤ × ℤ)
  | .Left =>
    [(-1, 0, -1), (-1, 1, -1), (-1, 1, 0), (-1, 1, 1),
      (-1, 0, 1), (-1, -1, 1), (-1, -1, 0), (-1, -1, -1)]
  | .Right =>
    [(1, 0, 1), (1, 1, 1), (1, 1, 0), (1, 1, -1),
      (1, 0, -1), (1, -1, -1), (1, -1, 0), (1, -1, 1)]
  | .Bottom =>
    [(-1, -1, 0), (-1, -1, -1), (0, -1, -1), (1, -1, -1),
      (1, -1, 0), (1, -1, 1), (0, -1, 1), (-1, -1, 1)]
  | .Top =>
    [(-1, 1, 0), (-1, 1, -1), (0, 1, -1), (1, 1, -1),
      (1, 1, 0), (1, 1, 1), (0, 1, 1), (-1, 1, 1)]
  | .Back =>
    [(1, 0, -1), (1, 1, -1), (0, 1, -1), (-1, 1, -1),
      (-1, 0, -1), (-1, -1, -1), (0, -1, -1), (1, -1, -1)]
  | .Front =>
    [(-1, 0, 1), (-1, 1, 1), (0, 1, 1), (1, 1, 1),
      (1, 0, 1), (1, -1, 1), (0, -1, 1), (-1, -1, 1)]

/-- `ao_value` (`meshes.rs`): quad-corner darkening from the two side and one
corner opacity flags. -/
def aoValue : Bool → Bool → Bool → ℕ
  | true, _, true => 0
  | true, true, false => 1
  | false, true, true => 1
  | false, false, false => 3
  | _, _, _ => 2

/-- `ao_values` (`meshes.rs`): sample the eight blocks around the face's
outer plane and combine adjacent triples. `neighbors[k]` is the opacity flag
of the block at `position.wrapping_add_signed(offset_k)`. -/
def aoValues (n : ChunkNeighborhood) (position : ℕ × ℕ × ℕ) (direction : Direction) :
    ℕ × ℕ × ℕ × ℕ :=
  let nb := (aoOffsets direction).map
    (fun offset => (n.get (wrapAdd3 position offset)).isOpaque)
  (aoValue (nb.getD 0 false) (nb.getD 1 false) (nb.getD 2 false),
    aoValue (nb.getD 2 false) (nb.getD 3 false) (nb.getD 4 false),
    aoValue (nb.getD 4 false) (nb.getD 5 false) (nb.getD 6 false),
    aoValue (nb.getD 6 false) (nb.getD 7 false) (nb.getD 0 false))

/-- `create_raw_mesh` (`meshes.rs`), as the stream of faces pushed into the
`RawMesh` in emission order: iterate the padded positions, skip `Empty`
blocks, and for each direction emit a face unless the neighbor is `Opaque`
or equal to the current block. -/
def createRawMesh (n : ChunkNeighborhood) : List Face :=
  ((meshingRange.map (fun position => (position, n.get position))).filter
      (fun pc => pc.2.visibility != Visibility.Empty)).flatMap
    (fun pc =>
      NEIGHBORS.filterMap (fun direction =>
        let neighborPos := wrapAdd3 pc.1 direction.toVec
        let neighbor := n.get neighborPos
        if neighbor.visibility = Visibility.Opaque ∨ neighbor = pc.2 then
          none
        else
          some (Face.new pc.2 pc.1 (aoValues n pc.1 direction) direction)))

/-- The face-emission table exactly as the spec words it: an `Opaque`
current block shows against `Empty` or `Transparent` neighbors, a
`Transparent` one shows against `Empty`, and two `Transparent` blocks show
against each other only when they are different block kinds. This definition
follows the spec text and is compared against the condition hard-coded in
`create_raw_mesh`. -/
def specEmit (current neighbor : Block) : Prop :=
  (current.visibility = Visibility.Opaque ∧
    (neighbor.visibility = Visibility.Empty ∨ neighbor.visibility = Visibility.Transparent)) ∨
  (current.visibility = Visibility.Transparent ∧ neighbor.visibility = Visibility.Empty) ∨
  (current.visibility = Visibility.Transparent ∧ neighbor.visibility = Visibility.Transparent ∧
    neighbor ≠ current)

instance (current neighbor : Block) : Decidable (specEmit current neighbor) := by
  unfold specEmit; infer_instance

/-- A concrete chunk holding a single `Grass` block at local `(8,1,8)`
(the spec's scenario input). -/
def grassChunkW : RawChunk :=
  ⟨fun q => if q = (8, 1, 8) then Block.Grass else Block.Air⟩

/-- A concrete neighborhood: `grassChunkW` at the origin, no other chunk. -/
def nbhdW : ChunkNeighborhood :=
  ⟨fun pos => if pos = (0, 0, 0) then some grassChunkW else none, (0, 0, 0)⟩

/-- A concrete chunk holding a single `Grass` block at local `(15,15,15)`,
the corner cell of the chunk. -/
def cornerChunkW : RawChunk :=
  ⟨fun q => if q = (15, 15, 15) then Block.Grass else Block.Air⟩

/-- A concrete neighborhood: `cornerChunkW` at the origin, no other chunk. -/
def cornerNbhdW : ChunkNeighborhood :=
  ⟨fun pos => if pos = (0, 0, 0) then some cornerChunkW else none, (0, 0, 0)⟩

/-- A concrete chunk that is `Grass` everywhere. -/
def fullGrassChunkW : RawChunk :=
  ⟨fun _ => Block.Grass⟩

/-- A concrete neighborhood with a center chunk and a fully opaque chunk at
the diagonal offset `(-1,-1,0)`, which face-neighbor dispatch never reads. -/
def diagNbhdW : ChunkNeighborhood :=
  ⟨fun pos =>
    if pos = (0, 0, 0) then some grassChunkW
    else if pos = (-1, -1, 0) then some fullGrassChunkW
    else none,
    (0, 0, 0)⟩

/-- `Biome` (`generator.rs`). -/
inductive Biome where
  | Plains
  | Winter
  | Desert
deriving DecidableEq, Repr

/-- `Biome::from_temperature` (`generator.rs`): the source `match` on an
`f64` with the range patterns `0.0..=0.3`, `0.3..=0.6`, `0.6..` tried in
order, and a final `_ => Plains` arm. Temperatures are modelled as rationals
(the claims and the spec speak about exact decimal thresholds; NaN, which
also falls to the `_` arm, is outside the model). -/
def Biome.fromTemperature (t : ℚ) : Biome :=
  if 0 ≤ t ∧ t ≤ 3 / 10 then Biome.Winter
  else if 3 / 10 ≤ t ∧ t ≤ 6 / 10 then Biome.Plains
  else if 6 / 10 ≤ t then Biome.Desert
  else Biome.Plains

/-- 3-vectors for the frustum math (`render/frustum_culling.rs`), over ℚ:
the claim C6 is about the comparison logic of the culling test, which is
exact in any ordered field. -/
def dot (a b : ℚ × ℚ × ℚ) : ℚ :=
  a.1 * b.1 + a.2.1 * b.2.1 + a.2.2 * b.2.2

/-- `Plane` (`frustum_culling.rs`). -/
structure Plane where
  normal : ℚ × ℚ × ℚ
  distance : ℚ

/-- `Relation` (`frustum_culling.rs`), declared `Inside < Intersect <
Outside` by the derived `Ord`. -/
inductive Relation where
  | Inside
  | Intersect
  | Outside
deriving DecidableEq, Repr, Fintype

/-- Ordinal of a `Relation` under the derived `Ord`. -/
def Relation.rank : Relation → ℕ
  | .Inside => 0
  | .Intersect => 1
  | .Outside => 2

/-- `std::cmp::max` on `Relation`: returns the second argument when the two
compare equal. -/
def Relation.rmax (a b : Relation) : Relation :=
  if a.rank ≤ b.rank then b else a

/-- `Relation::is_inside` (`frustum_culling.rs`): `Inside` and `Intersect`
both pass. -/
def Relation.isInside : Relation → Bool
  | .Outside => false
  | _ => true

/-- `Frustum` (`frustum_culling.rs`): six planes. Plane extraction from a
projection matrix involves floating-point normalization and is not needed by
the claims, which quantify over arbitrary frusta. -/
structure Frustum where
  leftFace : Plane
  rightFace : Plane
  bottomFace : Plane
  topFace : Plane
  nearFace : Plane
  farFace : Plane

/-- `Frustum::iter` (`frustum_culling.rs`): the planes in iteration order. -/
def Frustum.planes (f : Frustum) : List Plane :=
  [f.leftFace, f.rightFace, f.bottomFace, f.topFace, f.nearFace, f.farFace]

/-- `AABB` (`frustum_culling.rs`). -/
structure AABB where
  min : ℚ × ℚ × ℚ
  max : ℚ × ℚ × ℚ

/-- The `corners` array of `AABB::is_on_plane`, in source order;
`corners[0]` is `self.min`. -/
def AABB.corners (a : AABB) : List (ℚ × ℚ × ℚ) :=
  [a.min,
    (a.max.1, a.min.2.1, a.min.2.2),
    (a.min.1, a.max.2.1, a.min.2.2),
    (a.max.1, a.max.2.1, a.min.2.2),
    (a.min.1, a.min.2.1, a.max.2.2),
    (a.max.1, a.min.2.1, a.max.2.2),
    (a.min.1, a.max.2.1, a.max.2.2),
    a.max]

/-- `AABB::is_point_on_plane` (`frustum_culling.rs`): classify one point by
its signed distance against the plane's distance. -/
def isPointOnPlane (plane : Plane) (point : ℚ × ℚ × ℚ) : Relation :=
  let distance := dot point plane.normal
  if plane.distance < distance then Relation.Inside
  else if distance < plane.distance then Relation.Outside
  else Relation.Intersect

/-- `AABB::is_on_plane` (`frustum_culling.rs`): classify `corners[0]`, and
return `Intersect` as soon as any later corner classifies differently
(the source's early-return loop over `corners[1..]`). -/
def AABB.isOnPlane (a : AABB) (plane : Plane) : Relation :=
  let first := isPointOnPlane plane a.min
  if a.corners.tail.any (fun point => isPointOnPlane plane point != first) then
    Relation.Intersect
  else
    first

/-- `AABB::is_on_frustum` (`frustum_culling.rs`): fold `max` of the
per-plane relations starting from `Inside`, then `is_inside`. -/
def AABB.isOnFrustum (a : AABB) (f : Frustum) : Bool :=
  (f.planes.foldl (fun cur plane => Relation.rmax (a.isOnPlane plane) cur)
    Relation.Inside).isInside

/-- `HORIZONTAL_RENDER_DISTANCE` (`world/mod.rs`). -/
def HORIZONTAL_RENDER_DISTANCE : ℤ := 12

/-- `VERTICAL_RENDER_DISTANCE` (`world/mod.rs`). -/
def VERTICAL_RENDER_DISTANCE : ℤ := 12

/-- `GENERATION_DISTANCE` (`world/mod.rs`). -/
def GENERATION_DISTANCE : ℤ := HORIZONTAL_RENDER_DISTANCE + 1

/-- The ascending inclusive integer range `a..=b` as a list. -/
def intRange (a b : ℤ) : List ℤ :=
  (List.range (b + 1 - a).toNat).map (fun (i : ℕ) => a + (i : ℤ))

/-- A Rust `(-d..=d).flat_map(|x| repeat(x).zip(-d..=d))` iterator: all
`(x, z)` offset pairs of the square of radius `d`, `x` outermost. -/
def squarePairs (d : ℤ) : List (ℤ × ℤ) :=
  (intRange (-d) d).flatMap (fun x => (intRange (-d) d).map (fun z => (x, z)))

/-- `ChunkSectionPosition::adjacent` (`chunk.rs`): the four horizontally
adjacent column positions. -/
def adjacentSections (p : ℤ × ℤ) : List (ℤ × ℤ) :=
  [(p.1 - 1, p.2), (p.1 + 1, p.2), (p.1, p.2 - 1), (p.1, p.2 + 1)]

/-- The scheduler-visible state of `World` (`world/mod.rs`). `update` reads
the chunk map only through `chunks.get(position).is_some()` and extends it
with generator output, so the map is modelled by its key set; the generator
is abstracted by the list of vertical indices of the non-empty chunks it
yields per section (`ChunkSection::into_chunks`). -/
structure WorldState where
  chunks : Finset (ℤ × ℤ × ℤ)
  generatedSections : Finset (ℤ × ℤ)
  generatedMeshes : Finset (ℤ × ℤ × ℤ)

/-- The observable outcome of one `World::update` call: the new state, the
positions sent on the mesh-job channel in order, and the set of positions
sent as `Ungenerate` messages (the source iterates a `HashSet`, whose order
is unspecified, so only the set is modelled). -/
structure UpdateResult where
  world : WorldState
  sentPositions : List (ℤ × ℤ × ℤ)
  ungenerated : Finset (ℤ × ℤ × ℤ)

/-- `World::generate_sections` (`world/mod.rs`): insert every non-empty
chunk of every newly generated section into the chunk map and mark the
sections generated. (The source's early return on an empty position set
produces the same state.) -/
def generateSections (w : WorldState) (gen : ℤ × ℤ → List ℕ)
    (positions : Finset (ℤ × ℤ)) : WorldState :=
  { chunks := w.chunks ∪
      positions.biUnion (fun p => ((gen p).map (fun y => (p.1, (y : ℤ), p.2))).toFinset),
    generatedSections := w.generatedSections ∪ positions,
    generatedMeshes := w.generatedMeshes }

/-- The `generated_section_positions` computation of `World::update`: all
section positions within `GENERATION_DISTANCE` of the origin column that are
not yet generated (collected into a `BTreeSet`, here deduplicated by
`toFinset` at the use site). -/
def newSectionsList (w : WorldState) (origin : ℤ × ℤ × ℤ) : List (ℤ × ℤ) :=
  ((squarePairs GENERATION_DISTANCE).map
      (fun c => (c.1 + origin.1, c.2 + origin.2.2))).filter
    (fun p => decide (p ∉ w.generatedSections))

/-- The state after the generation step of `World::update`. -/
def postGen (w : WorldState) (gen : ℤ × ℤ → List ℕ) (origin : ℤ × ℤ × ℤ) : WorldState :=
  generateSections w gen (newSectionsList w origin).toFinset

/-- The `visible_chunks` list of `World::update`: every chunk position
within the render-distance box of the origin that is present in the chunk
map, in iterator order (`x` outermost, then `z`, then `y`). -/
def visibleChunksList (chunks : Finset (ℤ × ℤ × ℤ)) (origin : ℤ × ℤ × ℤ) :
    List (ℤ × ℤ × ℤ) :=
  ((squarePairs HORIZONTAL_RENDER_DISTANCE).flatMap (fun xz =>
      (intRange (-VERTICAL_RENDER_DISTANCE) VERTICAL_RENDER_DISTANCE).map (fun y =>
        (xz.1 + origin.1, y + origin.2.1, xz.2 + origin.2.2)))).filter
    (fun p => decide (p ∈ chunks))

/-- `IVec3::length_squared` of `position - origin`, the sort key of
`World::update`. -/
def distSq (a b : ℤ × ℤ × ℤ) : ℤ :=
  (a.1 - b.1) ^ 2 + (a.2.1 - b.2.1) ^ 2 + (a.2.2 - b.2.2) ^ 2

/-- The `non_generated_visible_chunks` vector of `World::update` after its
`sort_unstable_by_key` pass (the unstable sort is modelled by a stable merge
sort on the same key; the claims below do not depend on the order). -/
def sentList (w : WorldState) (gen : ℤ × ℤ → List ℕ) (origin : ℤ × ℤ × ℤ) :
    List (ℤ × ℤ × ℤ) :=
  ((visibleChunksList (postGen w gen origin).chunks origin).filter
      (fun p => decide (p ∉ (postGen w gen origin).generatedMeshes))).mergeSort
    (fun a b => decide (distSq a origin ≤ distSq b origin))

/-- `World::update` (`world/mod.rs`), parameterized by the integer origin
the source computes from the camera: run the generation step, compute the
visible chunks, extend `generated_meshes` with the not-yet-meshed visible
chunks (sent on the mesh-job channel in radial order), then retain only the
members still visible, emitting `Ungenerate` for the rest. -/
def World.update (w : WorldState) (gen : ℤ × ℤ → List ℕ) (origin : ℤ × ℤ × ℤ) :
    UpdateResult :=
  let w1 := postGen w gen origin
  let visibleChunks := visibleChunksList w1.chunks origin
  let sent := sentList w gen origin
  let m1 := w1.generatedMeshes ∪ sent.toFinset
  { world :=
      { chunks := w1.chunks
        generatedSections := w1.generatedSections
        generatedMeshes := m1.filter (fun p => p ∈ visibleChunks) }
    sentPositions := sent
    ungenerated := m1.filter (fun p => p ∉ visibleChunks) }

/-- On the mesher's working domain no `u32` wraparound occurs: as long as the
machine sum stays inside `[0, 2^32)`, `wrapping_add_signed` is plain integer
addition. -/
theorem wrapAddSigned_eq (a : ℕ) (b : ℤ) (h0 : 0 ≤ (a : ℤ) + b)
    (h1 : (a : ℤ) + b < 2 ^ 32) : (wrapAddSigned a b : ℤ) = (a : ℤ) + b := by
  unfold wrapAddSigned
  omega

theorem wrapAddSigned_ne_self (a : ℕ) (b : ℤ) (ha1 : 1 ≤ a) (ha2 : a ≤ 17)
    (hb1 : -1 ≤ b) (hb2 : b ≤ 1) (hb : b ≠ 0) : wrapAddSigned a b ≠ a := by
  unfold wrapAddSigned
  omega

theorem wrapAddSigned_self (a : ℕ) (ha : a ≤ 17) : wrapAddSigned a 0 = a := by
  unfold wrapAddSigned
  omega

/-- Membership in the padded meshing range is exactly the `[1..=16]^3` box. -/
theorem mem_meshingRange (p : ℕ × ℕ × ℕ) :
    p ∈ meshingRange ↔ inRange p.1 ∧ inRange p.2.1 ∧ inRange p.2.2 := by
  obtain ⟨x, y, z⟩ := p
  simp only [meshingRange, List.mem_flatMap, List.mem_map, List.mem_range'_1,
    inRange, CHUNK_SIZE, Prod.mk.injEq]
  constructor
  · rintro ⟨a, ha, b, hb, c, hc, rfl, rfl, rfl⟩
    omega
  · rintro ⟨⟨hx1, hx2⟩, ⟨hy1, hy2⟩, hz1, hz2⟩
    exact ⟨x, by omega, y, by omega, z, by omega, rfl, rfl, rfl⟩

theorem meshingRange_nodup : meshingRange.Nodup := by
  have hr : (List.range' 1 CHUNK_SIZE).Nodup := List.nodup_range' _ _
  unfold meshingRange
  rw [List.nodup_flatMap]
  refine ⟨fun x _ => ?_, ?_⟩
  · rw [List.nodup_flatMap]
    refine ⟨fun y _ => hr.map ?_, hr.pairwise_of_forall_ne fun y _ y' _ hne => ?_⟩
    · intro a b hab
      simpa using congrArg (fun q => q.2.2) hab
    · simp only [Function.onFun, List.disjoint_left]
      rintro q hq hq'
      simp only [List.mem_map] at hq hq'
      obtain ⟨c, _, rfl⟩ := hq
      obtain ⟨c', _, h⟩ := hq'
      exact hne (by simpa using (congrArg (fun r => r.2.1) h).symm)
  · refine hr.pairwise_of_forall_ne fun x _ x' _ hne => ?_
    simp only [Function.onFun, List.disjoint_left]
    rintro q hq hq'
    simp only [List.mem_flatMap, List.mem_map] at hq hq'
    obtain ⟨y, _, c, _, rfl⟩ := hq
    obtain ⟨y', _, c', _, h⟩ := hq'
    exact hne (by simpa using (congrArg (fun r => r.1) h).symm)

/-- Filtering a mapped list keeps exactly one element when the predicate
holds at exactly one (occurring once) source element. -/
theorem filter_map_single {α β : Type} (l : List α) (a : α) (f : α → β)
    (pred : β → Bool) (hl : l.Nodup) (ha : a ∈ l) (h1 : pred (f a) = true)
    (h2 : ∀ x ∈ l, x ≠ a → pred (f x) = false) :
    (l.map f).filter pred = [f a] := by
  induction l with
  | nil => cases ha
  | cons hd tl ih =>
    rw [List.map_cons, List.filter_cons]
    rcases List.mem_cons.mp ha with rfl | hmem
    · rw [h1]
      have : (tl.map f).filter pred = [] := by
        rw [List.filter_eq_nil_iff]
        intro b hb
        simp only [List.mem_map] at hb
        obtain ⟨x, hx, rfl⟩ := hb
        simp [h2 x (List.mem_cons_of_mem _ hx)
          (fun h => (List.nodup_cons.mp hl).1 (h ▸ hx))]
      simp [this]
    · have hd_ne : hd ≠ a := fun h => (List.nodup_cons.mp hl).1 (h ▸ hmem)
      rw [h2 hd (List.mem_cons_self _ _) hd_ne]
      exact ih (List.nodup_cons.mp hl).2 hmem
        (fun x hx hxa => h2 x (List.mem_cons_of_mem _ hx) hxa)

theorem getD_false_of_all_false (l : List Bool) (h : ∀ b ∈ l, b = false)
    (k : ℕ) : l.getD k false = false := by
  rcases hk : l[k]? with _ | b
  · simp [List.getD, hk]
  · have := h b (List.getElem?_mem hk)
    simp [List.getD, hk, this]

theorem mem_NEIGHBORS (d : Direction) : d ∈ NEIGHBORS := by
  cases d <;> simp [NEIGHBORS]

theorem wrapAddSigned_eq_self (a : ℕ) (b : ℤ) (ha1 : 1 ≤ a) (ha2 : a ≤ 16)
    (hb1 : -1 ≤ b) (hb2 : b ≤ 1) (h : wrapAddSigned a b = a) : b = 0 := by
  unfold wrapAddSigned at h
  omega

theorem wrapAdd3_ne_self (p : ℕ × ℕ × ℕ) (v : ℤ × ℤ × ℤ)
    (hp : 1 ≤ p.1 ∧ p.1 ≤ 16 ∧ 1 ≤ p.2.1 ∧ p.2.1 ≤ 16 ∧ 1 ≤ p.2.2 ∧ p.2.2 ≤ 16)
    (hv : -1 ≤ v.1 ∧ v.1 ≤ 1 ∧ -1 ≤ v.2.1 ∧ v.2.1 ≤ 1 ∧ -1 ≤ v.2.2 ∧ v.2.2 ≤ 1)
    (hv0 : v ≠ (0, 0, 0)) : wrapAdd3 p v ≠ p := by
  obtain ⟨x, y, z⟩ := p
  obtain ⟨vx, vy, vz⟩ := v
  dsimp only at hp hv
  obtain ⟨hx1, hx2, hy1, hy2, hz1, hz2⟩ := hp
  obtain ⟨ha1, ha2, hb1, hb2, hc1, hc2⟩ := hv
  intro h
  simp only [wrapAdd3, Prod.mk.injEq] at h
  obtain ⟨h1, h2, h3⟩ := h
  apply hv0
  have e1 := wrapAddSigned_eq_self x vx hx1 hx2 ha1 ha2 h1
  have e2 := wrapAddSigned_eq_self y vy hy1 hy2 hb1 hb2 h2
  have e3 := wrapAddSigned_eq_self z vz hz1 hz2 hc1 hc2 h3
  simp [e1, e2, e3]

/-- In a neighborhood whose center chunk holds a single `Grass` block at `p0`
and whose six face neighbors are all absent, `ChunkNeighborhood::get` reads
`Grass` exactly at the padded position `p0 + (1,1,1)` and `Air` everywhere
else. -/
theorem singleGrass_get (n : ChunkNeighborhood) (c : RawChunk) (p0 : ℕ × ℕ × ℕ)
    (hc : n.chunks n.center = some c)
    (hcc : ∀ q, c.blocks q = if q = p0 then Block.Grass else Block.Air)
    (hnb : ∀ i : Fin 6, n.chunks (addI3 n.center (OFFSETS i)) = none)
    (hp0 : p0.1 < CHUNK_SIZE ∧ p0.2.1 < CHUNK_SIZE ∧ p0.2.2 < CHUNK_SIZE) :
    ∀ q, n.get q = if q = addN3 p0 (1, 1, 1) then Block.Grass else Block.Air := by
  intro q
  obtain ⟨x, y, z⟩ := q
  obtain ⟨a, b, d⟩ := p0
  have hn : ∀ i : Fin 6, n.neighbor i = none := fun i => hnb i
  simp only [CHUNK_SIZE] at hp0
  simp only [ChunkNeighborhood.get, ChunkNeighborhood.getq, hc, Option.map_some',
    Option.getD_some, ChunkNeighborhood.getWith, hn, chunkOrAir, RawChunk.get, hcc,
    addN3, inRange, CHUNK_SIZE]
  split_ifs <;> first
    | rfl
    | (exfalso; simp only [Prod.mk.injEq, not_and] at *; omega)

/-- Running `create_raw_mesh` on a neighborhood whose center chunk holds a
single `Grass` block at local position `p0` (all six neighbor chunks
absent) yields exactly one face per direction, in `NEIGHBORS` order, each
with ambient occlusion `(3,3,3,3)`. -/
theorem singleGrass_mesh (n : ChunkNeighborhood) (c : RawChunk) (p0 : ℕ × ℕ × ℕ)
    (hc : n.chunks n.center = some c)
    (hcc : ∀ q, c.blocks q = if q = p0 then Block.Grass else Block.Air)
    (hnb : ∀ i : Fin 6, n.chunks (addI3 n.center (OFFSETS i)) = none)
    (hp0 : p0.1 < CHUNK_SIZE ∧ p0.2.1 < CHUNK_SIZE ∧ p0.2.2 < CHUNK_SIZE) :
    createRawMesh n =
      NEIGHBORS.map (fun dd => Face.new Block.Grass (addN3 p0 (1, 1, 1)) (3, 3, 3, 3) dd) := by
  have hget := singleGrass_get n c p0 hc hcc hnb hp0
  obtain ⟨a, b, d⟩ := p0
  simp only [CHUNK_SIZE] at hp0
  simp only [addN3] at hget ⊢
  have hbounds : 1 ≤ a + 1 ∧ a + 1 ≤ 16 ∧ 1 ≤ b + 1 ∧ b + 1 ≤ 16 ∧ 1 ≤ d + 1 ∧ d + 1 ≤ 16 := by
    omega
  have hAirAt : ∀ v : ℤ × ℤ × ℤ,
      (-1 ≤ v.1 ∧ v.1 ≤ 1 ∧ -1 ≤ v.2.1 ∧ v.2.1 ≤ 1 ∧ -1 ≤ v.2.2 ∧ v.2.2 ≤ 1) →
      v ≠ (0, 0, 0) → n.get (wrapAdd3 (a + 1, b + 1, d + 1) v) = Block.Air := by
    intro v hv hv0
    rw [hget, if_neg (wrapAdd3_ne_self _ v hbounds hv hv0)]
  have haoV : ∀ dd : Direction, aoValues n (a + 1, b + 1, d + 1) dd = (3, 3, 3, 3) := by
    intro dd
    have hvalid : ∀ off ∈ aoOffsets dd,
        (-1 ≤ off.1 ∧ off.1 ≤ 1 ∧ -1 ≤ off.2.1 ∧ off.2.1 ≤ 1 ∧
          -1 ≤ off.2.2 ∧ off.2.2 ≤ 1) ∧ off ≠ (0, 0, 0) := by
      cases dd <;> decide
    have hmapfalse : ((aoOffsets dd).map
        (fun offset => (n.get (wrapAdd3 (a + 1, b + 1, d + 1) offset)).isOpaque)) =
        List.replicate ((aoOffsets dd).length) false := by
      have hlen : ((aoOffsets dd).map
          (fun offset => (n.get (wrapAdd3 (a + 1, b + 1, d + 1) offset)).isOpaque)).length =
          (aoOffsets dd).length := List.length_map _ _
      rw [← hlen]
      apply List.eq_replicate_of_mem
      intro bb hbb
      simp only [List.mem_map] at hbb
      obtain ⟨off, hoff, rfl⟩ := hbb
      rw [hAirAt off (hvalid off hoff).1 (hvalid off hoff).2]
      rfl
    unfold aoValues
    rw [hmapfalse]
    have hrep : ∀ k : ℕ, (List.replicate ((aoOffsets dd).length) false).getD k false = false :=
      getD_false_of_all_false _ (fun bb hbb => List.eq_of_mem_replicate hbb)
    simp only [hrep]
    rfl
  have hstep : (meshingRange.map (fun position => (position, n.get position))).filter
      (fun pc => pc.2.visibility != Visibility.Empty) =
      [((a + 1, b + 1, d + 1), n.get (a + 1, b + 1, d + 1))] := by
    apply filter_map_single meshingRange (a + 1, b + 1, d + 1) _ _ meshingRange_nodup
    · rw [mem_meshingRange]
      simp only [inRange, CHUNK_SIZE]
      omega
    · rw [hget, if_pos rfl]
      rfl
    · intro xq hxq hne
      rw [hget, if_neg hne]
      rfl
  have hcenter : n.get (a + 1, b + 1, d + 1) = Block.Grass := by
    rw [hget, if_pos rfl]
  unfold createRawMesh
  rw [hstep, hcenter]
  have hdirvec : ∀ dd : Direction,
      (-1 ≤ dd.toVec.1 ∧ dd.toVec.1 ≤ 1 ∧ -1 ≤ dd.toVec.2.1 ∧ dd.toVec.2.1 ≤ 1 ∧
        -1 ≤ dd.toVec.2.2 ∧ dd.toVec.2.2 ≤ 1) ∧ dd.toVec ≠ (0, 0, 0) := by
    intro dd
    cases dd <;> decide
  have hnbAir : ∀ dd : Direction,
      n.get (wrapAdd3 (a + 1, b + 1, d + 1) dd.toVec) = Block.Air := fun dd =>
    hAirAt dd.toVec (hdirvec dd).1 (hdirvec dd).2
  simp only [List.flatMap_cons, List.flatMap_nil, List.append_nil, NEIGHBORS,
    List.filterMap_cons, List.map_cons, List.map_nil, hnbAir, haoV]
  simp [Block.visibility, Face.new]

/-- A face is in the output of `create_raw_mesh` exactly if it is the face
built at some padded in-range position whose block is not `Empty`, for a
direction whose neighbor is neither `Opaque` nor equal to the current
block. -/
theorem face_mem_createRawMesh (n : ChunkNeighborhood) (f : Face) :
    f ∈ createRawMesh n ↔ ∃ p ∈ meshingRange,
      (n.get p).visibility ≠ Visibility.Empty ∧
      ∃ d : Direction,
        ¬((n.get (wrapAdd3 p d.toVec)).visibility = Visibility.Opaque ∨
          n.get (wrapAdd3 p d.toVec) = n.get p) ∧
        f = Face.new (n.get p) p (aoValues n p d) d := by
  unfold createRawMesh
  simp only [List.mem_flatMap, List.mem_filter, List.mem_map, List.mem_filterMap]
  constructor
  · rintro ⟨pc, ⟨⟨p, hp, rfl⟩, hpred⟩, d, _, hbody⟩
    dsimp only at hpred hbody
    refine ⟨p, hp, by simpa [bne_iff_ne] using hpred, d, ?_⟩
    by_cases hcond : (n.get (wrapAdd3 p d.toVec)).visibility = Visibility.Opaque ∨
        n.get (wrapAdd3 p d.toVec) = n.get p
    · rw [if_pos hcond] at hbody
      cases hbody
    · rw [if_neg hcond] at hbody
      exact ⟨hcond, (Option.some.inj hbody).symm⟩
  · rintro ⟨p, hp, hcur, d, hcond, rfl⟩
    refine ⟨(p, n.get p), ⟨⟨p, hp, rfl⟩, by simpa [bne_iff_ne] using hcur⟩,
      d, mem_NEIGHBORS d, ?_⟩
    dsimp only
    rw [if_neg hcond]

/-- C1: for every neighborhood, padded position in `[1..=16]^3` holding a
non-`Empty` block, and direction, `create_raw_mesh` emits a face for that
position and direction if and only if the current/neighbor pair satisfies
the spec's emission table (`specEmit`): Opaque against Empty or Transparent,
Transparent against Empty, or distinct Transparent kinds; Opaque-Opaque and
like-to-like Transparent are culled. -/
theorem c1_emission_table (n : ChunkNeighborhood) (x y z : ℕ) (d : Direction)
    (hp : inRange x ∧ inRange y ∧ inRange z)
    (hcur : (n.get (x, y, z)).visibility ≠ Visibility.Empty) :
    (∃ f ∈ createRawMesh n, f.position = (x, y, z) ∧ f.direction = d) ↔
      specEmit (n.get (x, y, z)) (n.get (wrapAdd3 (x, y, z) d.toVec)) := by
  have hdec : ∀ cb nb : Block, cb.visibility ≠ Visibility.Empty →
      (¬(nb.visibility = Visibility.Opaque ∨ nb = cb) ↔ specEmit cb nb) := by decide
  constructor
  · rintro ⟨f, hf, hpos, hdir⟩
    rw [face_mem_createRawMesh] at hf
    obtain ⟨p, _, hcur', d', hcond, rfl⟩ := hf
    dsimp only [Face.new] at hpos hdir
    rw [hpos] at hcond hcur'
    rw [hdir] at hcond
    exact (hdec _ _ hcur').mp hcond
  · intro hspec
    refine ⟨Face.new (n.get (x, y, z)) (x, y, z) (aoValues n (x, y, z) d) d, ?_, rfl, rfl⟩
    rw [face_mem_createRawMesh]
    exact ⟨(x, y, z), (mem_meshingRange _).mpr hp, hcur, d,
      (hdec _ _ hcur).mpr hspec, rfl⟩

theorem c1_emission_table_witness :
    (inRange 9 ∧ inRange 2 ∧ inRange 9) ∧
    (nbhdW.get (9, 2, 9)).visibility ≠ Visibility.Empty ∧
    ((∃ f ∈ createRawMesh nbhdW, f.position = (9, 2, 9) ∧ f.direction = Direction.Top) ↔
      specEmit (nbhdW.get (9, 2, 9)) (nbhdW.get (wrapAdd3 (9, 2, 9) Direction.Top.toVec))) :=
  ⟨by decide, by decide, c1_emission_table nbhdW 9 2 9 Direction.Top (by decide) (by decide)⟩

/-- C8: on a neighborhood whose center chunk holds a single `Grass` block
(all six neighbor chunks absent), `create_raw_mesh` emits exactly 6 faces,
one per direction, each with ambient occlusion `(3,3,3,3)`. -/
theorem c8_single_grass (n : ChunkNeighborhood) (c : RawChunk) (p0 : ℕ × ℕ × ℕ)
    (hc : n.chunks n.center = some c)
    (hcc : ∀ q, c.blocks q = if q = p0 then Block.Grass else Block.Air)
    (hnb : ∀ i : Fin 6, n.chunks (addI3 n.center (OFFSETS i)) = none)
    (hp0 : p0.1 < CHUNK_SIZE ∧ p0.2.1 < CHUNK_SIZE ∧ p0.2.2 < CHUNK_SIZE) :
    (createRawMesh n).length = 6 ∧
    (∀ dd : Direction, ∃ f ∈ createRawMesh n, f.direction = dd) ∧
    (∀ f ∈ createRawMesh n, f.ao = (3, 3, 3, 3)) := by
  rw [singleGrass_mesh n c p0 hc hcc hnb hp0]
  refine ⟨rfl, ?_, ?_⟩
  · intro dd
    exact ⟨Face.new Block.Grass (addN3 p0 (1, 1, 1)) (3, 3, 3, 3) dd,
      List.mem_map.mpr ⟨dd, mem_NEIGHBORS dd, rfl⟩, rfl⟩
  · intro f hf
    rw [List.mem_map] at hf
    obtain ⟨dd, _, rfl⟩ := hf
    rfl

theorem c8_single_grass_witness :
    (nbhdW.chunks nbhdW.center = some grassChunkW) ∧
    (∀ q, grassChunkW.blocks q = if q = (8, 1, 8) then Block.Grass else Block.Air) ∧
    (∀ i : Fin 6, nbhdW.chunks (addI3 nbhdW.center (OFFSETS i)) = none) ∧
    (8 < CHUNK_SIZE ∧ 1 < CHUNK_SIZE ∧ 8 < CHUNK_SIZE) ∧
    ((createRawMesh nbhdW).length = 6 ∧
      (∀ dd : Direction, ∃ f ∈ createRawMesh nbhdW, f.direction = dd) ∧
      (∀ f ∈ createRawMesh nbhdW, f.ao = (3, 3, 3, 3))) :=
  ⟨rfl, fun q => rfl, by intro i; fin_cases i <;> rfl, by decide,
    c8_single_grass nbhdW grassChunkW (8, 1, 8) rfl (fun q => rfl)
      (by intro i; fin_cases i <;> rfl) (by decide)⟩

/-- C9: every face emitted by `create_raw_mesh` carries a block that is not
`Air`, so `Block::texture_id` is defined on it and `Face::vertices` never
reaches the `unreachable!` arm. -/
theorem c9_texture_id_safe (n : ChunkNeighborhood) (f : Face)
    (hf : f ∈ createRawMesh n) :
    f.block ≠ Block.Air ∧ (f.block.textureId).isSome ∧ (f.vertices).isSome := by
  rw [face_mem_createRawMesh] at hf
  obtain ⟨p, _, hcur, d, _, rfl⟩ := hf
  simp only [Face.new, Face.vertices, Option.isSome_map]
  revert hcur
  generalize n.get p = b
  intro hcur
  cases b
  · exact absurd rfl hcur
  · exact ⟨by decide, by decide, rfl⟩
  · exact ⟨by decide, by decide, rfl⟩

theorem c9_texture_id_safe_witness :
    (Face.new Block.Grass (9, 2, 9) (3, 3, 3, 3) Direction.Bottom ∈ createRawMesh nbhdW) ∧
    ((Face.new Block.Grass (9, 2, 9) (3, 3, 3, 3) Direction.Bottom).block ≠ Block.Air ∧
      ((Face.new Block.Grass (9, 2, 9) (3, 3, 3, 3) Direction.Bottom).block.textureId).isSome ∧
      ((Face.new Block.Grass (9, 2, 9) (3, 3, 3, 3) Direction.Bottom).vertices).isSome) := by
  have hmem : Face.new Block.Grass (9, 2, 9) (3, 3, 3, 3) Direction.Bottom ∈
      createRawMesh nbhdW := by
    rw [singleGrass_mesh nbhdW grassChunkW (8, 1, 8) rfl (fun q => rfl)
      (by intro i; fin_cases i <;> rfl) (by decide)]
    decide
  exact ⟨hmem, c9_texture_id_safe nbhdW _ hmem⟩

/-- C5 counterexample: with a single `Grass` block at local `(15,15,15)`,
the emitted faces have corner positions with components equal to 17, so the
claim that every emitted vertex position component lies in `0..=16` is false
(the mesher passes the padded `1..=16` block position to `Face::new`, and
each corner adds 0 or 1 per axis). -/
theorem c5_position_range_counterexample :
    ¬ ∀ f ∈ createRawMesh cornerNbhdW, ∀ q ∈ f.cornerPositions,
      q.1 ≤ 16 ∧ q.2.1 ≤ 16 ∧ q.2.2 ≤ 16 := by
  rw [singleGrass_mesh cornerNbhdW cornerChunkW (15, 15, 15) rfl (fun q => rfl)
    (by intro i; fin_cases i <;> rfl) (by decide)]
  decide

/-- C5 (amended): every corner position of every face emitted by
`create_raw_mesh` has components in `1..=17` (the padded block position in
`1..=16` plus 0 or 1 per axis), and hence each component still fits the
5-bit field of the packed vertex. -/
theorem c5_position_range (n : ChunkNeighborhood) (f : Face)
    (hf : f ∈ createRawMesh n) (q : ℕ × ℕ × ℕ) (hq : q ∈ f.cornerPositions) :
    (1 ≤ q.1 ∧ q.1 ≤ 17 ∧ 1 ≤ q.2.1 ∧ q.2.1 ≤ 17 ∧ 1 ≤ q.2.2 ∧ q.2.2 ≤ 17) ∧
    q.1 < 2 ^ 5 ∧ q.2.1 < 2 ^ 5 ∧ q.2.2 < 2 ^ 5 := by
  rw [face_mem_createRawMesh] at hf
  obtain ⟨p, hpmem, _, d, _, rfl⟩ := hf
  rw [mem_meshingRange] at hpmem
  simp only [inRange, CHUNK_SIZE] at hpmem
  simp only [Face.cornerPositions, Face.new, List.mem_map] at hq
  obtain ⟨v, hv, rfl⟩ := hq
  have hvb : ∀ dd : Direction, ∀ w ∈ Face.cornerTable dd,
      w.1 ≤ 1 ∧ w.2.1 ≤ 1 ∧ w.2.2 ≤ 1 := by decide
  obtain ⟨hv1, hv2, hv3⟩ := hvb d v hv
  obtain ⟨⟨h1, h2⟩, ⟨h3, h4⟩, h5, h6⟩ := hpmem
  simp only [addN3]
  omega

theorem c5_position_range_witness :
    (Face.new Block.Grass (9, 2, 9) (3, 3, 3, 3) Direction.Top ∈ createRawMesh nbhdW) ∧
    ((10, 3, 10) ∈ (Face.new Block.Grass (9, 2, 9) (3, 3, 3, 3) Direction.Top).cornerPositions) ∧
    ((1 ≤ 10 ∧ 10 ≤ 17 ∧ 1 ≤ 3 ∧ 3 ≤ 17 ∧ 1 ≤ 10 ∧ 10 ≤ 17) ∧
      10 < 2 ^ 5 ∧ 3 < 2 ^ 5 ∧ 10 < 2 ^ 5) := by
  have hmem : Face.new Block.Grass (9, 2, 9) (3, 3, 3, 3) Direction.Top ∈
      createRawMesh nbhdW := by
    rw [singleGrass_mesh nbhdW grassChunkW (8, 1, 8) rfl (fun q => rfl)
      (by intro i; fin_cases i <;> rfl) (by decide)]
    decide
  exact ⟨hmem, by decide, c5_position_range nbhdW _ hmem (10, 3, 10) (by decide)⟩

/-- C3: with the center chunk present (otherwise the source's `unwrap`
panics), `ChunkNeighborhood::get` is defined on every padded coordinate;
coordinates with a component above 17 read `Air`, the `[1..=16]^3` window
reads the center chunk at `p - 1`, a single component equal to 17 or 0 reads
the touching face of the corresponding face neighbor through the
`ChunkOrAir` view, and a missing neighbor chunk acts as all-`Air`. -/
theorem c3_padded_dispatch (n : ChunkNeighborhood) (c : RawChunk)
    (hc : n.chunks n.center = some c) (x y z : ℕ) :
    (n.getq (x, y, z)).isSome ∧
    ((17 < x ∨ 17 < y ∨ 17 < z) → n.getq (x, y, z) = some Block.Air) ∧
    (inRange x ∧ inRange y ∧ inRange z →
      n.getq (x, y, z) = some (c.get (x - 1, y - 1, z - 1))) ∧
    (x = 17 ∧ inRange y ∧ inRange z →
      n.getq (x, y, z) =
        some (chunkOrAir (n.chunks (addI3 n.center (1, 0, 0))) (0, y - 1, z - 1))) ∧
    (x = 0 ∧ inRange y ∧ inRange z →
      n.getq (x, y, z) =
        some (chunkOrAir (n.chunks (addI3 n.center (-1, 0, 0))) (15, y - 1, z - 1))) ∧
    (inRange x ∧ y = 17 ∧ inRange z →
      n.getq (x, y, z) =
        some (chunkOrAir (n.chunks (addI3 n.center (0, 1, 0))) (x - 1, 0, z - 1))) ∧
    (inRange x ∧ y = 0 ∧ inRange z →
      n.getq (x, y, z) =
        some (chunkOrAir (n.chunks (addI3 n.center (0, -1, 0))) (x - 1, 15, z - 1))) ∧
    (inRange x ∧ inRange y ∧ z = 17 →
      n.getq (x, y, z) =
        some (chunkOrAir (n.chunks (addI3 n.center (0, 0, 1))) (x - 1, y - 1, 0))) ∧
    (inRange x ∧ inRange y ∧ z = 0 →
      n.getq (x, y, z) =
        some (chunkOrAir (n.chunks (addI3 n.center (0, 0, -1))) (x - 1, y - 1, 15))) ∧
    (∀ q : ℕ × ℕ × ℕ, chunkOrAir none q = Block.Air) := by
  simp only [ChunkNeighborhood.getq, hc, Option.map_some']
  refine ⟨rfl, ?_, ?_, ?_, ?_, ?_, ?_, ?_, ?_, fun q => rfl⟩ <;>
    (intro h
     simp only [ChunkNeighborhood.getWith]
     split_ifs <;> first
       | rfl
       | (exfalso; simp only [inRange, CHUNK_SIZE] at *; omega))

theorem c3_padded_dispatch_witness :
    (nbhdW.chunks nbhdW.center = some grassChunkW) ∧
    (inRange 5 ∧ inRange 5 ∧ inRange 5) ∧
    nbhdW.getq (5, 5, 5) = some (grassChunkW.get (4, 4, 4)) :=
  ⟨rfl, by decide,
    (c3_padded_dispatch nbhdW grassChunkW rfl 5 5 5).2.2.1 (by decide)⟩

/-- C10: any padded coordinate with at least two components outside
`1..=16` (the edges and corners of the 18^3 window) reads `Air` from
`ChunkNeighborhood::get`, whatever the chunk map holds at diagonal chunk
coordinates, so the ambient-occlusion sampler treats such cells as
non-opaque. -/
theorem c10_edge_cells_air (n : ChunkNeighborhood) (c : RawChunk)
    (hc : n.chunks n.center = some c) (x y z : ℕ)
    (hp : (¬inRange x ∧ ¬inRange y) ∨ (¬inRange x ∧ ¬inRange z) ∨
      (¬inRange y ∧ ¬inRange z)) :
    n.getq (x, y, z) = some Block.Air ∧ (n.get (x, y, z)).isOpaque = false := by
  have hair : n.getq (x, y, z) = some Block.Air := by
    simp only [ChunkNeighborhood.getq, hc, Option.map_some', ChunkNeighborhood.getWith]
    split_ifs <;> first
      | rfl
      | (exfalso; simp only [inRange, CHUNK_SIZE] at *; omega)
  refine ⟨hair, ?_⟩
  rw [ChunkNeighborhood.get, hair]
  rfl

theorem c10_edge_cells_air_witness :
    (diagNbhdW.chunks diagNbhdW.center = some grassChunkW) ∧
    ((¬inRange 0 ∧ ¬inRange 0) ∨ (¬inRange 0 ∧ ¬inRange 5) ∨
      (¬inRange 0 ∧ ¬inRange 5)) ∧
    (diagNbhdW.getq (0, 0, 5) = some Block.Air ∧
      (diagNbhdW.get (0, 0, 5)).isOpaque = false) :=
  ⟨rfl, by decide, c10_edge_cells_air diagNbhdW grassChunkW rfl 0 0 5 (by decide)⟩

/-- C7 counterexample: at the boundary temperature `0.3` the code's first
range pattern `0.0..=0.3` matches and yields `Winter`, while the claim
(`0.3 ≤ t < 0.6` is `Plains`) demands `Plains`; and at a negative
temperature the fall-through `_` arm yields `Plains`, while the claim
(`t < 0.3` is `Winter`) demands `Winter`. -/
theorem c7_boundary_counterexample :
    Biome.fromTemperature (3 / 10) = Biome.Winter ∧ Biome.Winter ≠ Biome.Plains ∧
    Biome.fromTemperature (-1) = Biome.Plains ∧ ((-1 : ℚ) < 3 / 10) := by
  refine ⟨?_, by decide, ?_, by norm_num⟩
  · unfold Biome.fromTemperature
    rw [if_pos (by norm_num)]
  · unfold Biome.fromTemperature
    rw [if_neg (by norm_num), if_neg (by norm_num), if_neg (by norm_num)]

/-- C7 (amended): `Biome::from_temperature` yields `Winter` exactly on
`0 ≤ t ≤ 0.3`, `Desert` exactly on `t > 0.6`, and `Plains` exactly on
`0.3 < t ≤ 0.6` together with every negative temperature (the `_` arm). -/
theorem c7_biome_thresholds (t : ℚ) :
    (Biome.fromTemperature t = Biome.Winter ↔ 0 ≤ t ∧ t ≤ 3 / 10) ∧
    (Biome.fromTemperature t = Biome.Desert ↔ 6 / 10 < t) ∧
    (Biome.fromTemperature t = Biome.Plains ↔
      (t < 0 ∨ (3 / 10 < t ∧ t ≤ 6 / 10))) := by
  unfold Biome.fromTemperature
  split_ifs with h1 h2 h3
  · obtain ⟨ha, hb⟩ := h1
    refine ⟨iff_of_true rfl ⟨ha, hb⟩, iff_of_false (by simp) (by linarith),
      iff_of_false (by simp) ?_⟩
    rintro (h | ⟨h, _⟩) <;> linarith
  · obtain ⟨ha, hb⟩ := h2
    have h3 : 3 / 10 < t := by
      rcases eq_or_lt_of_le ha with h | h
      · exact absurd ⟨by linarith, by linarith⟩ h1
      · exact h
    exact ⟨iff_of_false (by simp) h1, iff_of_false (by simp) (by linarith),
      iff_of_true rfl (Or.inr ⟨h3, hb⟩)⟩
  · have ht : 6 / 10 < t := by
      rcases eq_or_lt_of_le h3 with h | h
      · exact absurd ⟨by linarith, by linarith⟩ h2
      · exact h
    refine ⟨iff_of_false (by simp) ?_, iff_of_true rfl ht,
      iff_of_false (by simp) ?_⟩
    · rintro ⟨_, hb⟩
      linarith
    · rintro (h | ⟨_, hb⟩) <;> linarith
  · push_neg at h3
    have hx : t < 3 / 10 := by
      by_contra hcon
      push_neg at hcon
      exact h2 ⟨hcon, by linarith⟩
    have hneg : t < 0 := by
      by_contra hcon
      push_neg at hcon
      exact h1 ⟨hcon, by linarith⟩
    refine ⟨iff_of_false (by simp) ?_, iff_of_false (by simp) (by linarith),
      iff_of_true rfl (Or.inl hneg)⟩
    rintro ⟨ha, _⟩
    linarith

/-- A point classifies `Outside` against a plane exactly when its signed
distance is strictly below the plane's distance. -/
theorem isPointOnPlane_outside_iff (pl : Plane) (pt : ℚ × ℚ × ℚ) :
    isPointOnPlane pl pt = Relation.Outside ↔ dot pt pl.normal < pl.distance := by
  simp only [isPointOnPlane]
  split_ifs with h1 h2
  · exact iff_of_false (by simp) (by linarith)
  · exact iff_of_true rfl h2
  · exact iff_of_false (by simp) h2

/-- `AABB::is_on_plane` answers `Outside` exactly when all 8 corners lie
strictly on the negative side of the plane. -/
theorem isOnPlane_outside_iff (a : AABB) (pl : Plane) :
    a.isOnPlane pl = Relation.Outside ↔
      ∀ pt ∈ a.corners, dot pt pl.normal < pl.distance := by
  have hcons : a.corners = a.min :: a.corners.tail := rfl
  simp only [AABB.isOnPlane]
  split_ifs with h
  · apply iff_of_false (by simp)
    intro hall
    rw [List.any_eq_true] at h
    obtain ⟨pt, hpt, hne⟩ := h
    rw [bne_iff_ne] at hne
    apply hne
    have h1 : isPointOnPlane pl pt = Relation.Outside :=
      (isPointOnPlane_outside_iff _ _).mpr
        (hall pt (by rw [hcons]; exact List.mem_cons_of_mem _ hpt))
    have h2 : isPointOnPlane pl a.min = Relation.Outside :=
      (isPointOnPlane_outside_iff _ _).mpr (hall a.min (by rw [hcons]; exact List.mem_cons_self _ _))
    rw [h1, h2]
  · rw [isPointOnPlane_outside_iff]
    have hsame : ∀ pt ∈ a.corners.tail, isPointOnPlane pl pt = isPointOnPlane pl a.min := by
      intro pt hpt
      by_contra hne
      exact h (List.any_eq_true.mpr ⟨pt, hpt, by rwa [bne_iff_ne]⟩)
    constructor
    · intro hmin pt hpt
      rw [hcons] at hpt
      rcases List.mem_cons.mp hpt with rfl | htl
      · exact hmin
      · rw [← isPointOnPlane_outside_iff, hsame pt htl, isPointOnPlane_outside_iff]
        exact hmin
    · intro hall
      exact hall a.min (by rw [hcons]; exact List.mem_cons_self _ _)

/-- C6: `AABB::is_on_frustum` fails exactly when, for at least one of the six
planes, all 8 corners of the box lie strictly on the negative side of that
plane; in every other case (`Inside` or `Intersect` against every plane) the
box passes. -/
theorem c6_frustum_culling (a : AABB) (f : Frustum) :
    a.isOnFrustum f = false ↔
      ∃ pl ∈ f.planes, ∀ pt ∈ a.corners, dot pt pl.normal < pl.distance := by
  have hfold : ∀ r1 r2 r3 r4 r5 r6 : Relation,
      (Relation.rmax r6 (Relation.rmax r5 (Relation.rmax r4 (Relation.rmax r3
        (Relation.rmax r2 (Relation.rmax r1 Relation.Inside)))))).isInside = false ↔
      (r1 = Relation.Outside ∨ r2 = Relation.Outside ∨ r3 = Relation.Outside ∨
        r4 = Relation.Outside ∨ r5 = Relation.Outside ∨ r6 = Relation.Outside) := by
    decide
  have hplanes : f.planes = [f.leftFace, f.rightFace, f.bottomFace, f.topFace,
      f.nearFace, f.farFace] := rfl
  simp only [AABB.isOnFrustum, hplanes, List.foldl_cons, List.foldl_nil]
  rw [hfold]
  simp only [isOnPlane_outside_iff, List.exists_mem_cons_iff, List.mem_nil_iff,
    false_and, exists_false, or_false]

theorem length_intRange (a b : ℤ) : (intRange a b).length = (b + 1 - a).toNat := by
  simp [intRange]

theorem length_flatMap_const {α β : Type} (l : List α) (f : α → List β) (k : ℕ)
    (h : ∀ x ∈ l, (f x).length = k) : (l.flatMap f).length = l.length * k := by
  induction l with
  | nil => simp
  | cons hd tl ih =>
    rw [List.flatMap_cons, List.length_append, h hd (List.mem_cons_self _ _),
      ih (fun x hx => h x (List.mem_cons_of_mem _ hx)), List.length_cons]
    ring

theorem mem_intRange (a b q : ℤ) : q ∈ intRange a b ↔ a ≤ q ∧ q ≤ b := by
  simp only [intRange, List.mem_map, List.mem_range]
  constructor
  · rintro ⟨i, hi, rfl⟩
    omega
  · rintro ⟨h1, h2⟩
    exact ⟨(q - a).toNat, by omega, by omega⟩

theorem mem_squarePairs (d : ℤ) (p : ℤ × ℤ) :
    p ∈ squarePairs d ↔ -d ≤ p.1 ∧ p.1 ≤ d ∧ -d ≤ p.2 ∧ p.2 ≤ d := by
  obtain ⟨px, pz⟩ := p
  simp only [squarePairs, List.mem_flatMap, List.mem_map, mem_intRange, Prod.mk.injEq]
  constructor
  · rintro ⟨x, hx, z, hz, rfl, rfl⟩
    exact ⟨hx.1, hx.2, hz.1, hz.2⟩
  · rintro ⟨h1, h2, h3, h4⟩
    exact ⟨px, ⟨h1, h2⟩, pz, ⟨h3, h4⟩, rfl, rfl⟩

/-- Membership in the `visible_chunks` list: present in the chunk map and
within the render-distance box of the origin. -/
theorem mem_visibleChunksList (chunks : Finset (ℤ × ℤ × ℤ)) (origin p : ℤ × ℤ × ℤ) :
    p ∈ visibleChunksList chunks origin ↔ p ∈ chunks ∧
      -HORIZONTAL_RENDER_DISTANCE ≤ p.1 - origin.1 ∧
      p.1 - origin.1 ≤ HORIZONTAL_RENDER_DISTANCE ∧
      -VERTICAL_RENDER_DISTANCE ≤ p.2.1 - origin.2.1 ∧
      p.2.1 - origin.2.1 ≤ VERTICAL_RENDER_DISTANCE ∧
      -HORIZONTAL_RENDER_DISTANCE ≤ p.2.2 - origin.2.2 ∧
      p.2.2 - origin.2.2 ≤ HORIZONTAL_RENDER_DISTANCE := by
  obtain ⟨px, py, pz⟩ := p
  simp only [visibleChunksList, List.mem_filter, List.mem_flatMap, List.mem_map,
    mem_squarePairs, mem_intRange, decide_eq_true_eq, Prod.mk.injEq]
  constructor
  · rintro ⟨⟨xz, hxz, y, hy, h1, h2, h3⟩, hmem⟩
    obtain ⟨qx, qz⟩ := xz
    dsimp only at hxz h1 h3
    refine ⟨hmem, ?_, ?_, ?_, ?_, ?_, ?_⟩ <;> omega
  · rintro ⟨hmem, hb1, hb2, hb3, hb4, hb5, hb6⟩
    refine ⟨⟨(px - origin.1, pz - origin.2.2), ?_, py - origin.2.1, ?_, ?_, ?_, ?_⟩, hmem⟩ <;>
      (dsimp only; omega)

/-- After the generation step, every section position within
`GENERATION_DISTANCE` of the origin column is generated. -/
theorem mem_postGen_generatedSections (w : WorldState) (gen : ℤ × ℤ → List ℕ)
    (origin : ℤ × ℤ × ℤ) (q : ℤ × ℤ)
    (hq : -GENERATION_DISTANCE ≤ q.1 - origin.1 ∧ q.1 - origin.1 ≤ GENERATION_DISTANCE ∧
      -GENERATION_DISTANCE ≤ q.2 - origin.2.2 ∧ q.2 - origin.2.2 ≤ GENERATION_DISTANCE) :
    q ∈ (postGen w gen origin).generatedSections := by
  simp only [postGen, generateSections, Finset.mem_union]
  by_cases hg : q ∈ w.generatedSections
  · exact Or.inl hg
  · right
    rw [List.mem_toFinset]
    simp only [newSectionsList, List.mem_filter, List.mem_map, mem_squarePairs,
      decide_eq_true_eq, Prod.mk.injEq]
    obtain ⟨qx, qz⟩ := q
    dsimp only at hq
    refine ⟨⟨(qx - origin.1, qz - origin.2.2), ?_, ?_⟩, hg⟩
    · show -GENERATION_DISTANCE ≤ qx - origin.1 ∧ qx - origin.1 ≤ GENERATION_DISTANCE ∧
        -GENERATION_DISTANCE ≤ qz - origin.2.2 ∧ qz - origin.2.2 ≤ GENERATION_DISTANCE
      omega
    · simp only [Prod.mk.injEq]
      omega

/-- C2: every position sent on the mesh-job channel by `World::update` has
all four horizontally adjacent section positions of its column already in
`generated_sections` at the moment of sending: the generation step runs
first over radius `GENERATION_DISTANCE = HORIZONTAL_RENDER_DISTANCE + 1`,
while meshing candidates lie within `HORIZONTAL_RENDER_DISTANCE` of the
origin. -/
theorem c2_neighbor_sections_generated (w : WorldState) (gen : ℤ × ℤ → List ℕ)
    (origin : ℤ × ℤ × ℤ) :
    GENERATION_DISTANCE = HORIZONTAL_RENDER_DISTANCE + 1 ∧
    ((World.update w gen origin).sentPositions.flatMap
        (fun p => adjacentSections (p.1, p.2.2))).toFinset ⊆
      (World.update w gen origin).world.generatedSections := by
  refine ⟨rfl, ?_⟩
  intro q hq
  rw [List.mem_toFinset, List.mem_flatMap] at hq
  obtain ⟨p, hp, hadj⟩ := hq
  have hp' : p ∈ sentList w gen origin := hp
  unfold sentList at hp'
  rw [List.mem_mergeSort, List.mem_filter] at hp'
  have hvis := hp'.1
  rw [mem_visibleChunksList] at hvis
  obtain ⟨_, hb1, hb2, _, _, hb5, hb6⟩ := hvis
  show q ∈ (postGen w gen origin).generatedSections
  apply mem_postGen_generatedSections
  simp only [adjacentSections, List.mem_cons, List.not_mem_nil, or_false] at hadj
  unfold GENERATION_DISTANCE HORIZONTAL_RENDER_DISTANCE at *
  rcases hadj with rfl | rfl | rfl | rfl <;> (dsimp only; omega)

/-- C4: after `World::update`, the set of live mesh positions is a subset of
the visible chunk list computed for the current origin, and its size is
bounded by `(2*HORIZONTAL_RENDER_DISTANCE+1)^2 * (2*VERTICAL_RENDER_DISTANCE+1)`:
positions entering the set are drawn from the visible list and the retain
pass evicts every member outside it. -/
theorem c4_mesh_set_bounded (w : WorldState) (gen : ℤ × ℤ → List ℕ)
    (origin : ℤ × ℤ × ℤ) :
    (World.update w gen origin).world.generatedMeshes ⊆
      (visibleChunksList (World.update w gen origin).world.chunks origin).toFinset ∧
    (World.update w gen origin).world.generatedMeshes.card ≤
      ((2 * HORIZONTAL_RENDER_DISTANCE + 1) ^ 2 *
        (2 * VERTICAL_RENDER_DISTANCE + 1)).toNat := by
  have hsub : (World.update w gen origin).world.generatedMeshes ⊆
      (visibleChunksList (postGen w gen origin).chunks origin).toFinset := by
    intro p hp
    have hp' : p ∈ ((postGen w gen origin).generatedMeshes ∪
        (sentList w gen origin).toFinset).filter
        (fun q => q ∈ visibleChunksList (postGen w gen origin).chunks origin) := hp
    rw [Finset.mem_filter] at hp'
    exact List.mem_toFinset.mpr hp'.2
  refine ⟨hsub, ?_⟩
  have h1 := Finset.card_le_card hsub
  have h2 := List.toFinset_card_le (visibleChunksList (postGen w gen origin).chunks origin)
  have hsq : (squarePairs HORIZONTAL_RENDER_DISTANCE).length = 625 := by
    unfold squarePairs
    rw [length_flatMap_const _ _ 25 (fun x _ => by
      rw [List.length_map, length_intRange]
      decide)]
    rw [length_intRange]
    decide
  have h3 : (visibleChunksList (postGen w gen origin).chunks origin).length ≤ 15625 := by
    unfold visibleChunksList
    refine le_trans (List.length_filter_le _ _) ?_
    rw [length_flatMap_const _ _ 25 (fun xz _ => by
      rw [List.length_map, length_intRange]
      decide)]
    rw [hsq]
  have h4 : ((2 * HORIZONTAL_RENDER_DISTANCE + 1) ^ 2 *
      (2 * VERTICAL_RENDER_DISTANCE + 1)).toNat = 15625 := by
    unfold HORIZONTAL_RENDER_DISTANCE VERTICAL_RENDER_DISTANCE
    decide
  rw [h4]
  exact le_trans h1 (le_trans h2 h3)

end Voxel
